import Mathlib

/-!
Shallow embedding of the device-coordination server (`src/server.js`) of the
shadowAI repository, together with proofs of the specification's testable
properties. Each section translates one cluster of server code:

* the pairing store (`addPair`, `removePair`, `edgesOf`, lines 62-101),
* the history store (`loadHistory`, the `/analyze` route, lines 104-149 and
  275-336),
* the `ask_followup` socket handler (lines 428-499),
* the signaling relay handlers (lines 390-425),
* the day-bucket helper `getDailyPath` (lines 108-121).

External effects (the AI provider call, socket deliveries, file writes) are
made explicit: the provider outcome is an `Except` parameter, emitted socket
events are collected in a list, and the day-bucket file is a list of lines.
-/

set_option autoImplicit false

namespace ShadowAI

/-- One entry of a device's pairing list: `{ id, name }` in `pairs.json`. -/
structure PairEntry where
  id : String
  name : String
deriving DecidableEq, Repr

/-- The pairing store `pairs`: a map from stable device id to its list of
pairing entries. A key that is absent in the JS object corresponds to the
default value `[]` here (the `if (!pairs[id]) pairs[id] = []` lines of
`addPair` only materialize that default). -/
abbrev Pairs := String → List PairEntry

/-- The initial store `pairs = {}` (server.js line 64). -/
def emptyPairs : Pairs := fun _ => []

/-- Point update of the pairing map. -/
def setKey (ps : Pairs) (k : String) (v : List PairEntry) : Pairs :=
  fun x => if x = k then v else ps x

/-- One half of `addPair` (server.js lines 91-92):
`if (!pairs[key].find(p => p.id === e.id)) pairs[key].push(e)`. -/
def pushIfAbsent (ps : Pairs) (key : String) (e : PairEntry) : Pairs :=
  if (ps key).any (fun p => p.id == e.id) then ps
  else setKey ps key (ps key ++ [e])

/-- `addPair(idA, nameA, idB, nameB)` (server.js lines 86-95): push the
`{id: idB, name: nameB}` entry onto `pairs[idA]` unless an entry with id
`idB` is already there, then symmetrically for `pairs[idB]`. The two steps
are sequential, so the second read observes the first push (this matters
when `idA = idB`, where the JS arrays alias). -/
def addPair (ps : Pairs) (idA nameA idB nameB : String) : Pairs :=
  pushIfAbsent (pushIfAbsent ps idA ⟨idB, nameB⟩) idB ⟨idA, nameA⟩

/-- One half of `removePair` (server.js lines 98-99):
`pairs[key] = pairs[key].filter(p => p.id !== target)`. -/
def removeEdge (ps : Pairs) (key target : String) : Pairs :=
  setKey ps key ((ps key).filter (fun p => !(p.id == target)))

/-- `removePair(idA, idB)` (server.js lines 97-101). -/
def removePair (ps : Pairs) (idA idB : String) : Pairs :=
  removeEdge (removeEdge ps idA idB) idB idA

/-- `edgesOf(stableId)`: the pairing list of a stable id (reading
`pairs[stableId]`, empty for unknown ids). -/
def edgesOf (ps : Pairs) (id : String) : List PairEntry := ps id

/-- Whether `edgesOf ps a` contains an entry for id `b`. -/
def hasEdge (ps : Pairs) (a b : String) : Bool :=
  (edgesOf ps a).any (fun p => p.id == b)

/-- Number of entries for id `b` in `edgesOf ps a`. -/
def countEdge (ps : Pairs) (a b : String) : Nat :=
  ((edgesOf ps a).filter (fun p => p.id == b)).length

/-- A mutation of the pairing store: one `addPair` or `removePair` call. -/
inductive PairOp where
  | add (idA nameA idB nameB : String)
  | remove (idA idB : String)
deriving DecidableEq, Repr

/-- Apply one pairing mutation. -/
def applyOp (ps : Pairs) : PairOp → Pairs
  | .add idA nameA idB nameB => addPair ps idA nameA idB nameB
  | .remove idA idB => removePair ps idA idB

/-- Apply a sequence of pairing mutations in order. -/
def applyOps (ps : Pairs) (ops : List PairOp) : Pairs :=
  ops.foldl applyOp ps

theorem hasEdge_pushIfAbsent (ps : Pairs) (k : String) (e : PairEntry)
    (x y : String) :
    hasEdge (pushIfAbsent ps k e) x y = true ↔
      (hasEdge ps x y = true ∨ (x = k ∧ y = e.id)) := by
  unfold pushIfAbsent
  by_cases hc : (ps k).any (fun p => p.id == e.id) = true
  · rw [if_pos hc]
    constructor
    · exact Or.inl
    · rintro (h | ⟨hx, hy⟩)
      · exact h
      · subst hx; subst hy
        exact hc
  · rw [if_neg hc]
    by_cases hx : x = k
    · subst hx
      simp only [hasEdge, edgesOf, setKey, eq_self_iff_true, if_true,
        true_and, List.any_append, List.any_cons, List.any_nil,
        Bool.or_false, Bool.or_eq_true, beq_iff_eq]
      constructor
      · rintro (h | h)
        · exact Or.inl h
        · exact Or.inr h.symm
      · rintro (h | h)
        · exact Or.inl h
        · exact Or.inr h.symm
    · simp only [hasEdge, edgesOf, setKey, if_neg hx]
      constructor
      · exact Or.inl
      · rintro (h | ⟨hxk, -⟩)
        · exact h
        · exact absurd hxk hx

theorem hasEdge_addPair (ps : Pairs) (a na b nb : String) (x y : String) :
    hasEdge (addPair ps a na b nb) x y = true ↔
      (hasEdge ps x y = true ∨ (x = a ∧ y = b) ∨ (x = b ∧ y = a)) := by
  unfold addPair
  rw [hasEdge_pushIfAbsent, hasEdge_pushIfAbsent]
  tauto

theorem hasEdge_removeEdge (ps : Pairs) (k t : String) (x y : String) :
    hasEdge (removeEdge ps k t) x y = true ↔
      (hasEdge ps x y = true ∧ ¬(x = k ∧ y = t)) := by
  unfold removeEdge
  by_cases hx : x = k
  · subst hx
    simp only [hasEdge, edgesOf, setKey, eq_self_iff_true, if_true, true_and,
      List.any_eq_true, List.mem_filter, beq_iff_eq, Bool.not_eq_true',
      beq_eq_false_iff_ne, ne_eq]
    constructor
    · rintro ⟨p, ⟨hp, hpt⟩, hpy⟩
      refine ⟨⟨p, hp, hpy⟩, ?_⟩
      intro hyt
      exact hpt (hpy.trans hyt)
    · rintro ⟨⟨p, hp, hpy⟩, hnot⟩
      refine ⟨p, ⟨hp, ?_⟩, hpy⟩
      intro hpt
      exact hnot (hpy.symm.trans hpt)
  · simp only [hasEdge, edgesOf, setKey, if_neg hx]
    constructor
    · exact fun h => ⟨h, fun hk => hx hk.1⟩
    · exact fun h => h.1

theorem hasEdge_removePair (ps : Pairs) (a b : String) (x y : String) :
    hasEdge (removePair ps a b) x y = true ↔
      (hasEdge ps x y = true ∧ ¬(x = a ∧ y = b) ∧ ¬(x = b ∧ y = a)) := by
  unfold removePair
  rw [hasEdge_removeEdge, hasEdge_removeEdge]
  tauto

/-- The symmetry invariant: every edge has its mirror edge. -/
def Symm (ps : Pairs) : Prop :=
  ∀ x y : String, hasEdge ps x y = true ↔ hasEdge ps y x = true

theorem symm_emptyPairs : Symm emptyPairs := by
  intro x y
  simp [hasEdge, edgesOf, emptyPairs]

theorem symm_applyOp (ps : Pairs) (op : PairOp) (h : Symm ps) :
    Symm (applyOp ps op) := by
  cases op with
  | add idA nameA idB nameB =>
    intro x y
    simp only [applyOp]
    rw [hasEdge_addPair, hasEdge_addPair, h x y]
    tauto
  | remove idA idB =>
    intro x y
    simp only [applyOp]
    rw [hasEdge_removePair, hasEdge_removePair, h x y]
    tauto

theorem symm_applyOps (ops : List PairOp) (ps : Pairs) (h : Symm ps) :
    Symm (applyOps ps ops) := by
  induction ops generalizing ps with
  | nil => exact h
  | cons op ops ih => exact ih (applyOp ps op) (symm_applyOp ps op h)

/-- The no-duplicates invariant: each pairing list holds at most one entry
per peer id. -/
def DupFree (ps : Pairs) : Prop :=
  ∀ a b : String, countEdge ps a b ≤ 1

theorem countEdge_eq_zero_of_not_any (ps : Pairs) (k t : String)
    (h : (ps k).any (fun p => p.id == t) = false) :
    countEdge ps k t = 0 := by
  simp only [countEdge, edgesOf, List.length_eq_zero]
  rw [List.filter_eq_nil_iff]
  intro p hp
  simp only [List.any_eq_false] at h
  exact h p hp

theorem dupFree_emptyPairs : DupFree emptyPairs := by
  intro a b
  simp [countEdge, edgesOf, emptyPairs]

theorem dupFree_pushIfAbsent (ps : Pairs) (k : String) (e : PairEntry)
    (h : DupFree ps) : DupFree (pushIfAbsent ps k e) := by
  intro x y
  unfold pushIfAbsent
  by_cases hc : (ps k).any (fun p => p.id == e.id) = true
  · rw [if_pos hc]
    exact h x y
  · rw [if_neg hc]
    by_cases hx : x = k
    · subst hx
      simp only [countEdge, edgesOf, setKey, eq_self_iff_true, if_true,
        List.filter_append, List.length_append]
      by_cases hy : (e.id == y) = true

      · have he : e.id = y := by rwa [beq_iff_eq] at hy
        have h0 : countEdge ps x y = 0 := by
          apply countEdge_eq_zero_of_not_any
          rw [Bool.eq_false_iff]
          intro hany
          apply hc
          rw [← he] at hany
          exact hany
        simp only [countEdge, edgesOf] at h0
        rw [h0]
        simp [List.filter, hy]
      · simp only [List.filter, hy]
        simpa using h x y
    · simp only [countEdge, edgesOf, setKey, if_neg hx]
      exact h x y

theorem dupFree_removeEdge (ps : Pairs) (k t : String)
    (h : DupFree ps) : DupFree (removeEdge ps k t) := by
  intro x y
  unfold removeEdge
  by_cases hx : x = k
  · subst hx
    simp only [countEdge, edgesOf, setKey, eq_self_iff_true, if_true]
    calc (((ps x).filter (fun p => !(p.id == t))).filter
            (fun p => p.id == y)).length
        ≤ ((ps x).filter (fun p => p.id == y)).length :=
          ((List.filter_sublist (ps x)).filter _).length_le
      _ ≤ 1 := h x y
  · simp only [countEdge, edgesOf, setKey, if_neg hx]
    exact h x y

theorem dupFree_applyOp (ps : Pairs) (op : PairOp) (h : DupFree ps) :
    DupFree (applyOp ps op) := by
  cases op with
  | add idA nameA idB nameB =>
    exact dupFree_pushIfAbsent _ _ _ (dupFree_pushIfAbsent _ _ _ h)
  | remove idA idB =>
    exact dupFree_removeEdge _ _ _ (dupFree_removeEdge _ _ _ h)

theorem dupFree_applyOps (ops : List PairOp) (ps : Pairs) (h : DupFree ps) :
    DupFree (applyOps ps ops) := by
  induction ops generalizing ps with
  | nil => exact h
  | cons op ops ih => exact ih (applyOp ps op) (dupFree_applyOp ps op h)

theorem countEdge_eq_one (ps : Pairs) (a b : String)
    (hdf : DupFree ps) (he : hasEdge ps a b = true) :
    countEdge ps a b = 1 := by
  have h1 : 1 ≤ countEdge ps a b := by
    simp only [hasEdge, edgesOf, List.any_eq_true] at he
    obtain ⟨p, hp, hpb⟩ := he
    have : p ∈ (ps a).filter (fun p => p.id == b) :=
      List.mem_filter.mpr ⟨hp, hpb⟩
    have := List.length_pos.mpr (List.ne_nil_of_mem this)
    simpa [countEdge, edgesOf] using this
  have h2 := hdf a b
  omega

/-- One `thread` entry of a scan record: `{ prompt, answer, timestamp }`
(server.js line 472). -/
structure ThreadEntry where
  prompt : String
  answer : String
  timestamp : String
deriving DecidableEq, Repr

/-- A `resultData` scan record (server.js lines 306-314). The `thread` field
is absent in a freshly created record; absence is modelled as `[]` (the
`if (!obj.thread) obj.thread = []` line materializes that default). -/
structure ScanRecord where
  id : String
  image : String
  answer : String
  provider : String
  model : String
  timestamp : String
  rawDate : String
  thread : List ThreadEntry
deriving DecidableEq, Repr

/-- One line of a day-bucket `data.jsonl` file, as seen by `JSON.parse`:
a line that parses to a record, a non-empty line that fails to parse, or a
blank line (skipped by the `if (line)` / `.filter(l => l)` guards). -/
inductive JsonLine where
  | record (r : ScanRecord)
  | malformed (s : String)
  | blank
deriving DecidableEq, Repr

/-- A socket event emitted by the server. -/
inductive Event where
  | newScan (id image : String)
  | newAnswer (r : ScanRecord)
  | historyUpdate (h : List ScanRecord)
  | scanFailed
  | errorMsg (msg : String)
  | followupResult (parentId prompt answer timestamp : String)
deriving DecidableEq, Repr

/-- An emission: `io.emit` broadcasts to every connection, `socket.emit`
(or `io.to(id).emit`) targets one connection. -/
inductive Emit where
  | broadcast (e : Event)
  | toConn (target : String) (e : Event)
deriving DecidableEq, Repr

/-- `now.toISOString().split('T')[0]` (server.js line 110): the calendar
date of an ISO timestamp string, i.e. the maximal run of characters before
the first 'T'. -/
def dateOf (iso : String) : String :=
  String.mk (iso.toList.takeWhile (fun c => c ≠ 'T'))

/-- `getDailyPath` (server.js lines 108-121): the day-bucket folder name is
derived from the current instant `nowISO`, never from any record. -/
def getDailyPath (nowISO : String) : String :=
  dateOf nowISO

/-- The in-memory history update of a successful capture (server.js lines
321-322): `history.unshift(resultData); if (history.length > 50)
history.pop();`. -/
def pushHistory (h : List ScanRecord) (r : ScanRecord) : List ScanRecord :=
  if 50 < (r :: h).length then (r :: h).dropLast else r :: h

/-- The outcome of the `/analyze` route (server.js lines 275-336): the
in-memory history, the day-bucket lines, the emitted socket events, the
image files written, and the HTTP response. -/
structure AnalyzeRes where
  history : List ScanRecord
  lines : List JsonLine
  events : List Emit
  imageWrites : List String
  status : Except String Unit
deriving Repr

/-- The `/analyze` route handler (server.js lines 275-336). `hasFile` is
`req.file` presence; `aiResult` is the outcome of the provider call
(`askGemini`/`askOllama`), which is a network effect and hence a parameter;
`scanId`, `imageUrl`, `timestamp` and `rawDate` stand for the
`Date`-derived values computed at the start of the handler. The image write
and the `new_scan` broadcast happen before the provider call, so they occur
on both outcomes; on failure the `catch` block broadcasts `scan_failed` and
`error` and touches neither the bucket nor the history. -/
def analyze (hist : List ScanRecord) (lines : List JsonLine)
    (hasFile : Bool) (provider modelName : String)
    (scanId imageUrl timestamp rawDate : String)
    (aiResult : Except String String) : AnalyzeRes :=
  if hasFile = false then
    { history := hist, lines := lines, events := [], imageWrites := [],
      status := .error "No image" }
  else
    match aiResult with
    | .error msg =>
        { history := hist, lines := lines,
          events := [.broadcast (.newScan scanId imageUrl),
            .broadcast .scanFailed, .broadcast (.errorMsg msg)],
          imageWrites := [imageUrl], status := .error msg }
    | .ok answer =>
        let resultData : ScanRecord :=
          { id := scanId, image := imageUrl, answer := answer,
            provider := provider, model := modelName,
            timestamp := timestamp, rawDate := rawDate, thread := [] }
        { history := pushHistory hist resultData,
          lines := lines ++ [.record resultData],
          events := [.broadcast (.newScan scanId imageUrl),
            .broadcast (.newAnswer resultData),
            .broadcast (.historyUpdate (pushHistory hist resultData))],
          imageWrites := [imageUrl], status := .ok () }

/-- The inputs of one capture request that the server does not compute
itself: request fields, `Date`-derived values, and the provider's answer. -/
structure CaptureInput where
  provider : String
  model : String
  scanId : String
  imageUrl : String
  timestamp : String
  rawDate : String
  answer : String
deriving DecidableEq, Repr

/-- The `resultData` record that a successful capture with these inputs
produces. -/
def toRecord (c : CaptureInput) : ScanRecord :=
  { id := c.scanId, image := c.imageUrl, answer := c.answer,
    provider := c.provider, model := c.model, timestamp := c.timestamp,
    rawDate := c.rawDate, thread := [] }

/-- One successful capture, threaded through the `/analyze` handler:
state is the pair (in-memory history, bucket lines). -/
def captureOk (st : List ScanRecord × List JsonLine) (c : CaptureInput) :
    List ScanRecord × List JsonLine :=
  let res := analyze st.1 st.2 true c.provider c.model c.scanId c.imageUrl
    c.timestamp c.rawDate (.ok c.answer)
  (res.history, res.lines)

/-- One step of the startup reload loop (server.js lines 131-139): a line
that parses is `unshift`ed onto the history, a malformed line is skipped
and a warning collected, a blank line is skipped silently. -/
def loadStep (acc : List ScanRecord × List String) (l : JsonLine) :
    List ScanRecord × List String :=
  match l with
  | .record r => (r :: acc.1, acc.2)
  | .malformed s => (acc.1, acc.2 ++ [s])
  | .blank => acc

/-- `loadHistory` (server.js lines 124-147) as a function of today's bucket
lines, starting from the empty in-memory history: returns the resulting
history (truncated to 50 by `history.length = 50`) and the warnings
emitted for malformed lines. -/
def loadHistory (lines : List JsonLine) :
    List ScanRecord × List String :=
  let acc := lines.foldl loadStep ([], [])
  (if 50 < acc.1.length then acc.1.take 50 else acc.1, acc.2)

/-- The records held by the parseable lines of a bucket, in file order. -/
def parsedRecords (lines : List JsonLine) : List ScanRecord :=
  lines.filterMap (fun l => match l with
    | .record r => some r
    | .malformed _ => none
    | .blank => none)

/-- The malformed lines of a bucket, in file order. -/
def malformedOf (lines : List JsonLine) : List String :=
  lines.filterMap (fun l => match l with
    | .record _ => none
    | .malformed s => some s
    | .blank => none)

/-- `history.find(h => h.id === parentId)` followed by a `thread.push`
(server.js lines 469-473): mutate the first record with the given id. -/
def mutateFirst (hist : List ScanRecord) (pid : String) (e : ThreadEntry) :
    List ScanRecord :=
  match hist with
  | [] => []
  | r :: rs =>
      if r.id == pid then { r with thread := r.thread ++ [e] } :: rs
      else r :: mutateFirst rs pid e

/-- The per-line update of the bucket rewrite (server.js lines 481-491):
a parseable line whose id matches gets the thread entry pushed and is
re-serialized; any other line is returned unchanged. -/
def updLine (pid : String) (e : ThreadEntry) : JsonLine → JsonLine
  | .record r =>
      if r.id == pid then .record { r with thread := r.thread ++ [e] }
      else .record r
  | .malformed s => .malformed s
  | .blank => .blank

/-- The `.filter(l => l)` guard of the rewrite (server.js line 479):
blank lines are dropped. -/
def notBlankLine : JsonLine → Bool
  | .blank => false
  | _ => true

/-- Outcome of the `ask_followup` handler: new in-memory history, new
bucket lines, emitted events, the day-bucket folder the rewrite targeted
(`none` when the provider call failed and the handler aborted into its
`catch`), and whether the file was rewritten. -/
structure FollowupRes where
  history : List ScanRecord
  lines : List JsonLine
  events : List Emit
  bucketFolder : Option String
  wroteFile : Bool
deriving Repr

/-- The `ask_followup` socket handler (server.js lines 428-499). `aiResult`
is the provider call outcome; `nowISO` is the instant the follow-up is
answered (the `getDailyPath()` call at line 465 derives the bucket from
it); `fileExists` is the `fs.existsSync(jsonlPath)` test; `senderId` is the
asking connection. On provider failure the `catch` emits an `error` event
to the sender only and nothing is persisted. On success the handler
broadcasts `followup_result` to every connection, pushes the entry onto the
first in-memory record with the parent id (if any), and rewrites today's
bucket with every matching line updated — without ever checking whether
the parent id was found anywhere. -/
def askFollowup (hist : List ScanRecord) (todayLines : List JsonLine)
    (fileExists : Bool) (parentId prompt : String)
    (aiResult : Except String String) (timestamp senderId nowISO : String) :
    FollowupRes :=
  match aiResult with
  | .error msg =>
      { history := hist, lines := todayLines,
        events := [.toConn senderId (.errorMsg ("Follow-up failed: " ++ msg))],
        bucketFolder := none, wroteFile := false }
  | .ok reply =>
      let entry : ThreadEntry :=
        { prompt := prompt, answer := reply, timestamp := timestamp }
      let hist' := mutateFirst hist parentId entry
      let lines' :=
        if fileExists then
          ((todayLines.filter notBlankLine).map (updLine parentId entry))
        else todayLines
      { history := hist',
        lines := lines',
        events := [.broadcast (.followupResult parentId prompt reply timestamp)],
        bucketFolder := some (getDailyPath nowISO),
        wroteFile := fileExists }

/-- The kinds of point-to-point signaling messages (server.js lines
390-425). -/
inductive SignalKind where
  | offer
  | answer
  | ice
  | requestStream
  | stopStream
  | triggerCapture
deriving DecidableEq, Repr

/-- A relayed message as received by the target connection. -/
inductive RelayMsg where
  | sigOffer (originId sdp : String)
  | sigAnswer (originId sdp : String)
  | sigIce (originId candidate : String)
  | reqStream (requesterId : String)
  | stpStream (requesterId : String)
  | trigCheck
deriving DecidableEq, Repr

/-- `io.to(targetId).emit(...)`: socket.io delivers to the room named by a
connection id, which holds exactly the socket with that id when it is
connected and is empty otherwise — so the message reaches the target
connection or nobody. -/
def emitTo (connected : List String) (target : String) (m : RelayMsg) :
    List (String × RelayMsg) :=
  if target ∈ connected then [(target, m)] else []

/-- The six relay handlers (server.js lines 390-425): each one forwards its
payload, tagged with the sender's connection id, to the target connection
only. -/
def handleSignal (connected : List String) (senderId targetId payload : String)
    (k : SignalKind) : List (String × RelayMsg) :=
  match k with
  | .offer => emitTo connected targetId (.sigOffer senderId payload)
  | .answer => emitTo connected targetId (.sigAnswer senderId payload)
  | .ice => emitTo connected targetId (.sigIce senderId payload)
  | .requestStream => emitTo connected targetId (.reqStream senderId)
  | .stopStream => emitTo connected targetId (.stpStream senderId)
  | .triggerCapture => emitTo connected targetId .trigCheck

theorem take_append_take {α : Type} (a b : List α) (n : Nat) :
    (a ++ b.take n).take n = (a ++ b).take n := by
  rw [List.take_append_eq_append_take, List.take_append_eq_append_take,
    List.take_take]
  congr 1
  rw [Nat.min_eq_left (Nat.sub_le n a.length)]

theorem pushHistory_eq_take (h : List ScanRecord) (r : ScanRecord)
    (hl : h.length ≤ 50) : pushHistory h r = (r :: h).take 50 := by
  unfold pushHistory
  by_cases hc : 50 < (r :: h).length
  · rw [if_pos hc, List.dropLast_eq_take]
    congr 1
    simp only [List.length_cons] at hc ⊢
    omega
  · rw [if_neg hc]
    exact (List.take_of_length_le (Nat.not_lt.mp hc)).symm

theorem foldl_pushHistory (rs : List ScanRecord) (h0 : List ScanRecord)
    (hl : h0.length ≤ 50) :
    rs.foldl pushHistory h0 = (rs.reverse ++ h0).take 50 := by
  induction rs generalizing h0 with
  | nil =>
    simpa using (List.take_of_length_le hl).symm
  | cons r rs ih =>
    rw [List.foldl_cons, pushHistory_eq_take h0 r hl,
      ih ((r :: h0).take 50) (by simp [List.length_take]),
      take_append_take, List.reverse_cons, List.append_assoc,
      List.singleton_append]

theorem fst_foldl_captureOk (cs : List CaptureInput)
    (h : List ScanRecord) (l : List JsonLine) :
    (cs.foldl captureOk (h, l)).1 = (cs.map toRecord).foldl pushHistory h := by
  induction cs generalizing h l with
  | nil => rfl
  | cons c cs ih =>
    rw [List.foldl_cons, List.map_cons, List.foldl_cons]
    exact ih (pushHistory h (toRecord c)) (l ++ [.record (toRecord c)])

/-- Claim C3: after more than 50 successful captures, the in-memory
recency window has length exactly 50 and holds exactly the 50
most-recently-appended records, most-recent-first (the oldest evicted
first), regardless of the (≤ 50 entries long) history the sequence
started from. -/
theorem C3_history_bound (h0 : List ScanRecord) (l0 : List JsonLine)
    (cs : List CaptureInput) (hh : h0.length ≤ 50) (hn : 50 < cs.length) :
    (cs.foldl captureOk (h0, l0)).1 = ((cs.map toRecord).reverse).take 50 ∧
    (cs.foldl captureOk (h0, l0)).1.length = 50 := by
  rw [fst_foldl_captureOk, foldl_pushHistory _ _ hh]
  have hlen : 50 ≤ ((cs.map toRecord).reverse).length := by
    rw [List.length_reverse, List.length_map]
    omega
  have heq : (((cs.map toRecord).reverse) ++ h0).take 50 =
      ((cs.map toRecord).reverse).take 50 := by
    rw [List.take_append_eq_append_take,
      Nat.sub_eq_zero_of_le hlen, List.take_zero, List.append_nil]
  refine ⟨heq, ?_⟩
  rw [heq, List.length_take]
  omega

/-- Witness for C3 at a concrete run of 51 captures from an empty state. -/
def sampleCaptures : List CaptureInput :=
  (List.range 51).map (fun i =>
    { provider := "ollama", model := "llama3", scanId := toString i,
      imageUrl := "", timestamp := "", rawDate := "", answer := "" })

theorem C3_history_bound_witness :
    (([] : List ScanRecord).length ≤ 50 ∧ 50 < sampleCaptures.length) ∧
    ((sampleCaptures.foldl captureOk ([], [])).1 =
        ((sampleCaptures.map toRecord).reverse).take 50 ∧
      (sampleCaptures.foldl captureOk ([], [])).1.length = 50) :=
  ⟨⟨by decide, by decide⟩,
    C3_history_bound [] [] sampleCaptures (by decide) (by decide)⟩

/-- Claim C4: a capture whose provider call fails broadcasts `scan_failed`
and an `error` event carrying the failure message, appends nothing to the
day bucket, and leaves the in-memory recency window unchanged. -/
theorem C4_failed_analysis_no_trace (hist : List ScanRecord)
    (lines : List JsonLine) (prov model sid url ts rd msg : String) :
    (analyze hist lines true prov model sid url ts rd (.error msg)).history
        = hist ∧
    (analyze hist lines true prov model sid url ts rd (.error msg)).lines
        = lines ∧
    (analyze hist lines true prov model sid url ts rd (.error msg)).events
        = [.broadcast (.newScan sid url), .broadcast .scanFailed,
            .broadcast (.errorMsg msg)] :=
  ⟨rfl, rfl, rfl⟩

/-- Claim C10: the image write and the `new_scan` broadcast happen before
the provider call, so they are identical on the failure and success
outcomes; on failure they remain while the bucket append, the `new_answer`
broadcast and the history update are omitted. -/
theorem C10_failure_frame (hist : List ScanRecord) (lines : List JsonLine)
    (prov model sid url ts rd msg : String) :
    (analyze hist lines true prov model sid url ts rd (.error msg)).imageWrites
        = [url] ∧
    (analyze hist lines true prov model sid url ts rd (.error msg)).events.head?
        = some (.broadcast (.newScan sid url)) ∧
    (∀ ans : String,
      (analyze hist lines true prov model sid url ts rd (.ok ans)).imageWrites
          = (analyze hist lines true prov model sid url ts rd
              (.error msg)).imageWrites ∧
      (analyze hist lines true prov model sid url ts rd (.ok ans)).events.head?
          = (analyze hist lines true prov model sid url ts rd
              (.error msg)).events.head?) ∧
    (analyze hist lines true prov model sid url ts rd (.error msg)).history
        = hist ∧
    (analyze hist lines true prov model sid url ts rd (.error msg)).lines
        = lines ∧
    (∀ e ∈ (analyze hist lines true prov model sid url ts rd
        (.error msg)).events,
      (∀ r : ScanRecord, e ≠ .broadcast (.newAnswer r)) ∧
      (∀ hh : List ScanRecord, e ≠ .broadcast (.historyUpdate hh))) := by
  refine ⟨rfl, rfl, fun ans => ⟨rfl, rfl⟩, rfl, rfl, ?_⟩
  intro e he
  have hev : (analyze hist lines true prov model sid url ts rd
      (.error msg)).events = [.broadcast (.newScan sid url),
        .broadcast .scanFailed, .broadcast (.errorMsg msg)] := rfl
  rw [hev] at he
  simp only [List.mem_cons, List.not_mem_nil, or_false] at he
  rcases he with rfl | rfl | rfl
  · exact ⟨fun r h => by simp at h, fun hh h => by simp at h⟩
  · exact ⟨fun r h => by simp at h, fun hh h => by simp at h⟩
  · exact ⟨fun r h => by simp at h, fun hh h => by simp at h⟩

theorem C10_failure_frame_witness :
    (analyze [] [] true "ollama" "llama3" "7" "/history/x/7.jpg" "t" "d"
      (.error "boom")).imageWrites = ["/history/x/7.jpg"] :=
  (C10_failure_frame [] [] "ollama" "llama3" "7" "/history/x/7.jpg" "t" "d"
    "boom").1

theorem foldl_loadStep (lines : List JsonLine) (h0 : List ScanRecord)
    (w0 : List String) :
    lines.foldl loadStep (h0, w0) =
      ((parsedRecords lines).reverse ++ h0, w0 ++ malformedOf lines) := by
  induction lines generalizing h0 w0 with
  | nil => simp [parsedRecords, malformedOf]
  | cons l ls ih =>
    cases l with
    | record r =>
      rw [List.foldl_cons]
      show ls.foldl loadStep (r :: h0, w0) = _
      rw [ih]
      simp [parsedRecords, malformedOf, List.filterMap_cons]
    | malformed s =>
      rw [List.foldl_cons]
      show ls.foldl loadStep (h0, w0 ++ [s]) = _
      rw [ih]
      simp [parsedRecords, malformedOf, List.filterMap_cons]
    | blank =>
      rw [List.foldl_cons]
      show ls.foldl loadStep (h0, w0) = _
      rw [ih]
      simp [parsedRecords, malformedOf, List.filterMap_cons]

/-- Claim C8: reloading a day bucket whose parseable records are r1..rN
(N ≤ 50), possibly interleaved with malformed lines, yields the records
reversed to most-recent-first, with one warning per malformed line and the
load running to completion. -/
theorem C8_reload_fidelity (lines : List JsonLine)
    (h : (parsedRecords lines).length ≤ 50) :
    (loadHistory lines).1 = (parsedRecords lines).reverse ∧
    (loadHistory lines).2 = malformedOf lines := by
  have hacc : lines.foldl loadStep ([], []) =
      ((parsedRecords lines).reverse, malformedOf lines) := by
    rw [foldl_loadStep]
    simp
  have hfst : (lines.foldl loadStep ([], [])).1 =
      (parsedRecords lines).reverse := congrArg Prod.fst hacc
  constructor
  · show (if 50 < (lines.foldl loadStep ([], [])).1.length
        then (lines.foldl loadStep ([], [])).1.take 50
        else (lines.foldl loadStep ([], [])).1) = (parsedRecords lines).reverse
    rw [hfst, if_neg]
    rw [List.length_reverse]
    omega
  · exact congrArg Prod.snd hacc

/-- Sample record for concrete witnesses. -/
def sampleRec (i : String) : ScanRecord :=
  { id := i, image := "", answer := "", provider := "", model := "",
    timestamp := "", rawDate := "", thread := [] }

/-- Sample bucket for the C8 witness: two good lines around one malformed
line. -/
def sampleLines : List JsonLine :=
  [.record (sampleRec "1"), .malformed "not json", .record (sampleRec "2")]

theorem C8_reload_fidelity_witness :
    (parsedRecords sampleLines).length ≤ 50 ∧
    ((loadHistory sampleLines).1 = (parsedRecords sampleLines).reverse ∧
      (loadHistory sampleLines).2 = malformedOf sampleLines) :=
  ⟨by decide, C8_reload_fidelity sampleLines (by decide)⟩

/-- Claim C1: starting from the empty pairing store, after any sequence of
`addPair`/`removePair` calls, `edgesOf A` holds an entry for `B` iff
`edgesOf B` holds an entry for `A`; and directly after `removePair A B`,
neither side's list holds the other. -/
theorem C1_pairing_symmetry (ops : List PairOp) (A B : String) :
    (hasEdge (applyOps emptyPairs ops) A B = true ↔
      hasEdge (applyOps emptyPairs ops) B A = true) ∧
    hasEdge (removePair (applyOps emptyPairs ops) A B) A B = false ∧
    hasEdge (removePair (applyOps emptyPairs ops) A B) B A = false := by
  refine ⟨symm_applyOps ops emptyPairs symm_emptyPairs A B, ?_, ?_⟩
  · rw [Bool.eq_false_iff]
    intro h
    exact ((hasEdge_removePair _ A B A B).mp h).2.1 ⟨rfl, rfl⟩
  · rw [Bool.eq_false_iff]
    intro h
    exact ((hasEdge_removePair _ A B B A).mp h).2.2 ⟨rfl, rfl⟩

/-- Claim C6: in any store reachable from the empty one, calling `addPair`
twice for distinct stable ids A and B leaves exactly one entry for B in
A's list and exactly one entry for A in B's list. -/
theorem C6_idempotent_pairing (ops : List PairOp)
    (A nA B nB nA2 nB2 : String) (hAB : A ≠ B) :
    countEdge
        (addPair (addPair (applyOps emptyPairs ops) A nA B nB) A nA2 B nB2)
        A B = 1 ∧
    countEdge
        (addPair (addPair (applyOps emptyPairs ops) A nA B nB) A nA2 B nB2)
        B A = 1 := by
  have hdf : DupFree (applyOps emptyPairs ops) :=
    dupFree_applyOps ops emptyPairs dupFree_emptyPairs
  have hdf1 : DupFree (addPair (applyOps emptyPairs ops) A nA B nB) :=
    dupFree_applyOp _ (.add A nA B nB) hdf
  have hdf2 : DupFree
      (addPair (addPair (applyOps emptyPairs ops) A nA B nB) A nA2 B nB2) :=
    dupFree_applyOp _ (.add A nA2 B nB2) hdf1
  have he1 : hasEdge
      (addPair (addPair (applyOps emptyPairs ops) A nA B nB) A nA2 B nB2)
      A B = true := by
    rw [hasEdge_addPair]
    exact Or.inr (Or.inl ⟨rfl, rfl⟩)
  have he2 : hasEdge
      (addPair (addPair (applyOps emptyPairs ops) A nA B nB) A nA2 B nB2)
      B A = true := by
    rw [hasEdge_addPair]
    exact Or.inr (Or.inr ⟨rfl, rfl⟩)
  exact ⟨countEdge_eq_one _ A B hdf2 he1, countEdge_eq_one _ B A hdf2 he2⟩

theorem C6_idempotent_pairing_witness :
    (("deskA" : String) ≠ "phoneB") ∧
    (countEdge
        (addPair (addPair (applyOps emptyPairs []) "deskA" "Desk" "phoneB"
          "Phone") "deskA" "Desk" "phoneB" "Phone")
        "deskA" "phoneB" = 1 ∧
      countEdge
        (addPair (addPair (applyOps emptyPairs []) "deskA" "Desk" "phoneB"
          "Phone") "deskA" "Desk" "phoneB" "Phone")
        "phoneB" "deskA" = 1) :=
  ⟨by decide,
    C6_idempotent_pairing [] "deskA" "Desk" "phoneB" "Phone" "Desk" "Phone"
      (by decide)⟩

/-- Whether a bucket line is a parseable record carrying the given id. -/
def lineHasId (pid : String) : JsonLine → Bool
  | .record r => r.id == pid
  | .malformed _ => false
  | .blank => false

theorem mutateFirst_of_absent (hist : List ScanRecord) (pid : String)
    (e : ThreadEntry) (h : hist.all (fun r => !(r.id == pid)) = true) :
    mutateFirst hist pid e = hist := by
  induction hist with
  | nil => rfl
  | cons r rs ih =>
    simp only [List.all_cons, Bool.and_eq_true, Bool.not_eq_true'] at h
    simp only [mutateFirst]
    rw [if_neg (by rw [h.1]; exact Bool.false_ne_true), ih h.2]

theorem updLine_of_no_match (pid : String) (e : ThreadEntry) (l : JsonLine)
    (h : lineHasId pid l = false) : updLine pid e l = l := by
  cases l with
  | record r =>
    simp only [lineHasId] at h
    simp only [updLine, h]
    rw [if_neg]
    simp [h]
  | malformed s => rfl
  | blank => rfl

/-- Claim C2, counterexample: a follow-up whose `parentId` ("2") matches no
record in the day bucket nor in memory does not signal not-found and
surfaces no failure to the asker — the only emitted event is the ordinary
`followup_result` success broadcast to everyone. -/
theorem C2_counterexample :
    (askFollowup [sampleRec "1"] [.record (sampleRec "1")] true "2" "q"
        (.ok "a") "t" "sock" "2099-01-01T00:00:00.000Z").events =
      [.broadcast (.followupResult "2" "q" "a" "t")] ∧
    (∀ e ∈ (askFollowup [sampleRec "1"] [.record (sampleRec "1")] true "2"
        "q" (.ok "a") "t" "sock" "2099-01-01T00:00:00.000Z").events,
      (∀ m : String, e ≠ .broadcast (.errorMsg m)) ∧
      (∀ c m : String, e ≠ .toConn c (.errorMsg m))) := by
  refine ⟨rfl, ?_⟩
  intro e he
  have hev : (askFollowup [sampleRec "1"] [.record (sampleRec "1")] true "2"
      "q" (.ok "a") "t" "sock" "2099-01-01T00:00:00.000Z").events =
      [.broadcast (.followupResult "2" "q" "a" "t")] := rfl
  rw [hev] at he
  simp only [List.mem_cons, List.not_mem_nil, or_false] at he
  subst he
  exact ⟨fun m h => by simp at h, fun c m h => by simp at h⟩

/-- Claim C2, amended: on a `parentId` matching no record in the durable
day log nor in memory, the in-memory history and the bucket lines (hence
the rewritten file content) are unchanged — but no not-found is signalled:
the handler broadcasts a normal `followup_result` to all connections and
surfaces no failure to the asker. -/
theorem C2_followup_not_found (hist : List ScanRecord)
    (lines : List JsonLine) (pid prompt reply ts sender now : String)
    (hmem : hist.all (fun r => !(r.id == pid)) = true)
    (hfile : lines.all (fun l => !(lineHasId pid l)) = true)
    (hnb : lines.all notBlankLine = true) :
    (askFollowup hist lines true pid prompt (.ok reply) ts sender
        now).history = hist ∧
    (askFollowup hist lines true pid prompt (.ok reply) ts sender
        now).lines = lines ∧
    (askFollowup hist lines true pid prompt (.ok reply) ts sender
        now).events = [.broadcast (.followupResult pid prompt reply ts)] := by
  refine ⟨?_, ?_, rfl⟩
  · exact mutateFirst_of_absent hist pid _ hmem
  · show ((lines.filter notBlankLine).map
        (updLine pid (⟨prompt, reply, ts⟩ : ThreadEntry))) = lines
    rw [List.filter_eq_self.mpr (List.all_eq_true.mp hnb)]
    rw [List.map_congr_left (g := id) ?hg, List.map_id]
    case hg =>
      intro l hl
      have := List.all_eq_true.mp hfile l hl
      simp only [Bool.not_eq_true'] at this
      exact updLine_of_no_match pid _ l this

theorem C2_followup_not_found_witness :
    (([sampleRec "1"] : List ScanRecord).all
        (fun r => !(r.id == "2")) = true ∧
      ([JsonLine.record (sampleRec "1")] : List JsonLine).all
        (fun l => !(lineHasId "2" l)) = true ∧
      ([JsonLine.record (sampleRec "1")] : List JsonLine).all
        notBlankLine = true) ∧
    ((askFollowup [sampleRec "1"] [.record (sampleRec "1")] true "2" "q2"
        (.ok "a2") "t2" "sock" "2099-01-01T00:00:00.000Z").history =
        [sampleRec "1"] ∧
      (askFollowup [sampleRec "1"] [.record (sampleRec "1")] true "2" "q2"
        (.ok "a2") "t2" "sock" "2099-01-01T00:00:00.000Z").lines =
        [.record (sampleRec "1")] ∧
      (askFollowup [sampleRec "1"] [.record (sampleRec "1")] true "2" "q2"
        (.ok "a2") "t2" "sock" "2099-01-01T00:00:00.000Z").events =
        [.broadcast (.followupResult "2" "q2" "a2" "t2")]) :=
  ⟨⟨by decide, by decide, by decide⟩,
    C2_followup_not_found [sampleRec "1"] [.record (sampleRec "1")] "2" "q2"
      "a2" "t2" "sock" "2099-01-01T00:00:00.000Z" (by decide) (by decide)
      (by decide)⟩

/-- Claim C7: a follow-up whose `parentId` matches a record stored in the
day bucket rewrites that record with its thread extended by exactly the new
entry: length grows by one, the prior entries are preserved in order as the
front of the new thread, and the record id is unchanged. -/
theorem C7_thread_append (hist : List ScanRecord) (lines : List JsonLine)
    (pid prompt reply ts sender now : String) (r : ScanRecord)
    (hmem : JsonLine.record r ∈ lines) (hid : r.id = pid) :
    JsonLine.record { r with thread :=
        r.thread ++ [(⟨prompt, reply, ts⟩ : ThreadEntry)] } ∈
      (askFollowup hist lines true pid prompt (.ok reply) ts sender
        now).lines ∧
    (r.thread ++ [(⟨prompt, reply, ts⟩ : ThreadEntry)]).length
        = r.thread.length + 1 ∧
    (r.thread ++ [(⟨prompt, reply, ts⟩ : ThreadEntry)]).take r.thread.length
        = r.thread ∧
    ({ r with thread :=
        r.thread ++ [(⟨prompt, reply, ts⟩ : ThreadEntry)] } :
      ScanRecord).id = r.id := by
  refine ⟨?_, by simp, List.take_left r.thread _, rfl⟩
  show JsonLine.record _ ∈ (lines.filter notBlankLine).map
    (updLine pid (⟨prompt, reply, ts⟩ : ThreadEntry))
  refine List.mem_map.mpr ⟨.record r, List.mem_filter.mpr ⟨hmem, rfl⟩, ?_⟩
  simp only [updLine, beq_iff_eq, if_pos hid]

theorem C7_thread_append_witness :
    (JsonLine.record (sampleRec "9") ∈
        ([.malformed "junk", .record (sampleRec "9")] : List JsonLine) ∧
      (sampleRec "9").id = "9") ∧
    (JsonLine.record { sampleRec "9" with thread :=
        (sampleRec "9").thread ++ [(⟨"p", "a", "t"⟩ : ThreadEntry)] } ∈
      (askFollowup [] [.malformed "junk", .record (sampleRec "9")] true "9"
        "p" (.ok "a") "t" "sock" "2099-01-01T00:00:00.000Z").lines ∧
      ((sampleRec "9").thread ++ [(⟨"p", "a", "t"⟩ : ThreadEntry)]).length
          = (sampleRec "9").thread.length + 1 ∧
      ((sampleRec "9").thread ++ [(⟨"p", "a", "t"⟩ : ThreadEntry)]).take
          (sampleRec "9").thread.length = (sampleRec "9").thread ∧
      ({ sampleRec "9" with thread := (sampleRec "9").thread ++
          [(⟨"p", "a", "t"⟩ : ThreadEntry)] } :
        ScanRecord).id = (sampleRec "9").id) :=
  ⟨⟨by decide, by decide⟩,
    C7_thread_append [] [.malformed "junk", .record (sampleRec "9")] "9" "p"
      "a" "t" "sock" "2099-01-01T00:00:00.000Z" (sampleRec "9")
      (by decide) (by decide)⟩

/-- The record of the C9 counterexample: created just before midnight. -/
def lateRecord : ScanRecord :=
  { id := "100", image := "", answer := "", provider := "", model := "",
    timestamp := "11:59:59 PM", rawDate := "2024-01-01T23:59:59.000Z",
    thread := [] }

/-- Claim C9, counterexample: a follow-up answered at 00:00:01 of
2024-01-02 to a record created at 23:59:59 of 2024-01-01 targets the
bucket `2024-01-02` — derived from the answer time — which differs from
the bucket of the record's original creation date. -/
theorem C9_counterexample :
    (askFollowup [lateRecord] [] true "100" "q" (.ok "a") "t" "sock"
        "2024-01-02T00:00:01.000Z").bucketFolder = some "2024-01-02" ∧
    dateOf lateRecord.rawDate = "2024-01-01" ∧
    (askFollowup [lateRecord] [] true "100" "q" (.ok "a") "t" "sock"
        "2024-01-02T00:00:01.000Z").bucketFolder ≠
      some (dateOf lateRecord.rawDate) := by
  refine ⟨by decide, by decide, ?_⟩
  intro h
  have h1 : (askFollowup [lateRecord] [] true "100" "q" (.ok "a") "t" "sock"
      "2024-01-02T00:00:01.000Z").bucketFolder = some "2024-01-02" := by
    decide
  rw [h1] at h
  have h2 : dateOf lateRecord.rawDate = "2024-01-01" := by decide
  rw [h2] at h
  simp at h

/-- Claim C9, amended: the bucket a follow-up write targets is always
derived from the instant the follow-up is answered (`getDailyPath` of
"now"), independent of the parent record's creation date. -/
theorem C9_bucket_resolution (hist : List ScanRecord)
    (lines : List JsonLine) (fe : Bool)
    (pid prompt reply ts sender now : String) :
    (askFollowup hist lines fe pid prompt (.ok reply) ts sender
        now).bucketFolder = some (getDailyPath now) := rfl

/-- Claim C5: each of the six relay kinds delivers its payload to the
target connection only; when the target is not connected, the message is
dropped and delivered to nobody. -/
theorem C5_relay_isolation (connected : List String)
    (senderId targetId payload : String) (k : SignalKind) :
    (∀ d ∈ handleSignal connected senderId targetId payload k,
      d.1 = targetId) ∧
    (targetId ∉ connected →
      handleSignal connected senderId targetId payload k = []) := by
  constructor
  · intro d hd
    cases k <;>
      simp only [handleSignal, emitTo] at hd <;>
      (by_cases hc : targetId ∈ connected
       · rw [if_pos hc] at hd
         simp only [List.mem_cons, List.not_mem_nil, or_false] at hd
         rw [hd]
       · rw [if_neg hc] at hd
         exact absurd hd (List.not_mem_nil d))
  · intro hc
    cases k <;> simp [handleSignal, emitTo, hc]

theorem C5_relay_isolation_witness :
    handleSignal ["conn1", "conn2"] "conn1" "gone" "sdp" .offer = [] :=
  (C5_relay_isolation ["conn1", "conn2"] "conn1" "gone" "sdp" .offer).2
    (by decide)

end ShadowAI
